import Mathlib

/-!
Shallow embedding of the supriya sampler scripts
(`scripts/drum_sampler.py` and `scripts/piano_sampler.py`).

Python floats are modelled as exact rationals (`ℚ`); Python ints as `ℤ`.
Python's stable `sorted` is modelled by `List.insertionSort`, which is the
stable sort provided by Mathlib.  Filesystem paths, audio buffers and the
supriya engine context do not participate in any claim and are omitted from
the embedded records.
-/

namespace DrumSampler

/-- Embeds `SampleLayer` from `scripts/drum_sampler.py` (the `path`,
`channel_count` and `buffer` fields are engine/filesystem data unused by the
layer-selection logic). -/
structure SampleLayer where
  velocity_hint : Int
  gain : ℚ := 1
  tune_semitones : ℚ := 0
  deriving Repr, DecidableEq

/-- Embeds `Instrument` from `scripts/drum_sampler.py`; `rotation` is the
mutable `_rotation` round-robin cursor, threaded explicitly. -/
structure Instrument where
  name : String
  layers : List SampleLayer
  midi_notes : List Int := []
  rotation : Int := 0
  deriving Repr, DecidableEq

/-- Distance key used by `choose_layer`: `abs(layer.velocity_hint - target)`. -/
def layer_dist (target : Int) (l : SampleLayer) : Int :=
  |l.velocity_hint - target|

/-- Comparison relation of the Python `sorted(..., key=lambda layer:
abs(layer.velocity_hint - target))` call. -/
def layer_le (target : Int) (a b : SampleLayer) : Prop :=
  layer_dist target a ≤ layer_dist target b

instance (target : Int) : DecidableRel (layer_le target) :=
  fun a b => inferInstanceAs (Decidable (layer_dist target a ≤ layer_dist target b))

instance (target : Int) : IsTotal SampleLayer (layer_le target) :=
  ⟨fun a b => le_total (layer_dist target a) (layer_dist target b)⟩

instance (target : Int) : IsTrans SampleLayer (layer_le target) :=
  ⟨fun _ _ _ hab hbc => le_trans hab hbc⟩

/-- Embeds lines 116-121 of `Instrument.choose_layer`: the stable ranking of
the layers by distance to the clamped velocity and the filtering of the tied
set at the minimal distance (`ranked[0]`'s distance). -/
def nearest_layers (inst : Instrument) (velocity : Int) : List SampleLayer :=
  match inst.layers.insertionSort (layer_le (max 1 (min velocity 127))) with
  | [] => []
  | r0 :: rest =>
    (r0 :: rest).filter (fun l =>
      layer_dist (max 1 (min velocity 127)) l ==
        layer_dist (max 1 (min velocity 127)) r0)

/-- Embeds `Instrument.choose_layer`.  Returns the chosen layer together with
the updated instrument (its `_rotation` field may advance), threading the
mutable `_rotation` state explicitly.  `none` models the `IndexError` Python
would raise on an empty layer list.  The `getD` fallbacks are dead: the index
is always within bounds of `nearest`. -/
def choose_layer (inst : Instrument) (velocity : Int) (event_index : Option Nat) :
    Option (SampleLayer × Instrument) :=
  match nearest_layers inst velocity with
  | [] => none
  | n0 :: rest =>
    if (n0 :: rest).length == 1 then
      some (n0, inst)
    else
      match event_index with
      | some i => some ((n0 :: rest).getD (i % (n0 :: rest).length) n0, inst)
      | none =>
        let rot := (inst.rotation + 1) % (((n0 :: rest).length : Nat) : Int)
        some ((n0 :: rest).getD rot.toNat n0, { inst with rotation := rot })

theorem nearest_layers_ne_nil (inst : Instrument) (velocity : Int)
    (h : inst.layers ≠ []) : nearest_layers inst velocity ≠ [] := by
  unfold nearest_layers
  have hperm := List.perm_insertionSort
    (layer_le (max 1 (min velocity 127))) inst.layers
  split
  case h_1 hr =>
    rw [hr] at hperm
    exact absurd hperm.nil_eq.symm h
  case h_2 r0 rest hr =>
    rw [List.filter_cons_of_pos (by simp)]
    exact List.cons_ne_nil _ _

theorem nearest_layers_mem_min (inst : Instrument) (velocity : Int) (l : SampleLayer)
    (hl : l ∈ nearest_layers inst velocity) :
    l ∈ inst.layers ∧ ∀ m ∈ inst.layers,
      layer_dist (max 1 (min velocity 127)) l ≤ layer_dist (max 1 (min velocity 127)) m := by
  unfold nearest_layers at hl
  have hperm := List.perm_insertionSort
    (layer_le (max 1 (min velocity 127))) inst.layers
  have hsorted := List.sorted_insertionSort
    (layer_le (max 1 (min velocity 127))) inst.layers
  split at hl
  case h_1 hr => simp at hl
  case h_2 r0 rest hr =>
    rw [hr] at hperm hsorted
    obtain ⟨hmem, hdist⟩ := List.mem_filter.mp hl
    have hdl : layer_dist (max 1 (min velocity 127)) l =
        layer_dist (max 1 (min velocity 127)) r0 := by
      exact_mod_cast beq_iff_eq.mp hdist
    refine ⟨hperm.mem_iff.mp hmem, fun m hm => ?_⟩
    have hmr : m ∈ r0 :: rest := hperm.mem_iff.mpr hm
    rw [hdl]
    rcases List.mem_cons.mp hmr with hm0 | hmr
    · exact le_of_eq (hm0 ▸ rfl)
    · exact (List.sorted_cons.mp hsorted).1 m hmr

/-- C1: `choose_layer` clamps the velocity into `[1, 127]`, returns a layer
at minimal absolute distance to the clamped velocity, and on a tie returns
`nearest[event_index % count]` with the rotation state untouched when an
event index is supplied, and otherwise advances the rotation counter by one
modulo the tie count and returns the layer at the new counter position. -/
theorem choose_layer_correct (inst : Instrument) (velocity : Int)
    (event_index : Option Nat) (hne : inst.layers ≠ []) :
    ∃ layer inst2,
      choose_layer inst velocity event_index = some (layer, inst2) ∧
      layer ∈ inst.layers ∧
      (∀ m ∈ inst.layers,
        layer_dist (max 1 (min velocity 127)) layer ≤
          layer_dist (max 1 (min velocity 127)) m) ∧
      (match event_index with
       | some i =>
          inst2 = inst ∧
          (nearest_layers inst velocity)[i % (nearest_layers inst velocity).length]? =
            some layer
       | none =>
          if (nearest_layers inst velocity).length = 1 then
            inst2 = inst ∧ (nearest_layers inst velocity)[0]? = some layer
          else
            inst2.rotation = (inst.rotation + 1) % ((nearest_layers inst velocity).length : Int) ∧
            (nearest_layers inst velocity)[inst2.rotation.toNat]? = some layer) := by
  have hnn := nearest_layers_ne_nil inst velocity hne
  unfold choose_layer
  cases hn : nearest_layers inst velocity with
  | nil => exact absurd hn hnn
  | cons n0 rest =>
    have hget : ∀ k, k < (n0 :: rest).length →
        (n0 :: rest)[k]? = some ((n0 :: rest).getD k n0) := by
      intro k hk
      rw [List.getD_eq_getElem?_getD, List.getElem?_eq_getElem hk]
      rfl
    have hmm : ∀ k, k < (n0 :: rest).length →
        ((n0 :: rest).getD k n0 ∈ inst.layers ∧ ∀ m ∈ inst.layers,
          layer_dist (max 1 (min velocity 127)) ((n0 :: rest).getD k n0) ≤
            layer_dist (max 1 (min velocity 127)) m) := by
      intro k hk
      apply nearest_layers_mem_min
      rw [hn, List.getD_eq_getElem?_getD, List.getElem?_eq_getElem hk]
      exact List.getElem_mem hk
    cases event_index with
    | some i =>
      by_cases hlen : (n0 :: rest).length = 1
      · have h0 : (0 : Nat) < (n0 :: rest).length := by simp
        refine ⟨n0, inst, by simp [hlen], ?_, ?_, rfl, ?_⟩
        · exact (hmm 0 h0).1
        · exact (hmm 0 h0).2
        · rw [hlen, Nat.mod_one]
          simp
      · have hk : i % (n0 :: rest).length < (n0 :: rest).length :=
          Nat.mod_lt _ (by simp)
        refine ⟨(n0 :: rest).getD (i % (n0 :: rest).length) n0, inst, ?_,
          (hmm _ hk).1, (hmm _ hk).2, rfl, ?_⟩
        · simp only [List.length_cons]
          rw [if_neg (by simpa using hlen)]
        · exact hget _ hk
    | none =>
      by_cases hlen : (n0 :: rest).length = 1
      · have h0 : (0 : Nat) < (n0 :: rest).length := by simp
        refine ⟨n0, inst, by simp [hlen], (hmm 0 h0).1, (hmm 0 h0).2, ?_⟩
        simp only [if_pos hlen]
        exact ⟨by trivial, by simp⟩
      · have hpos : (0 : Int) < ((n0 :: rest).length : Int) := by
          exact_mod_cast Nat.pos_of_ne_zero (by simp)
        have hrot0 : (0 : Int) ≤ (inst.rotation + 1) % ((n0 :: rest).length : Int) :=
          Int.emod_nonneg _ (by omega)
        have hrotlt : (inst.rotation + 1) % ((n0 :: rest).length : Int) <
            ((n0 :: rest).length : Int) := Int.emod_lt_of_pos _ hpos
        have hk : ((inst.rotation + 1) % ((n0 :: rest).length : Int)).toNat <
            (n0 :: rest).length := by omega
        refine ⟨(n0 :: rest).getD
            ((inst.rotation + 1) % ((n0 :: rest).length : Int)).toNat n0,
          { inst with rotation := (inst.rotation + 1) % ((n0 :: rest).length : Int) }, ?_,
          (hmm _ hk).1, (hmm _ hk).2, ?_⟩
        · simp only [List.length_cons]
          rw [if_neg (by simpa using hlen)]
        · simp only [if_neg hlen]
          exact ⟨by trivial, hget _ hk⟩

/-- Comparison used by `sorted(tempos or [(0, 500_000)], key=lambda t: t[0])`. -/
def tick_le (a b : Int × Int) : Prop := a.1 ≤ b.1

instance : DecidableRel tick_le := fun a b => inferInstanceAs (Decidable (a.1 ≤ b.1))

instance : IsTotal (Int × Int) tick_le := ⟨fun a b => le_total a.1 b.1⟩

instance : IsTrans (Int × Int) tick_le := ⟨fun _ _ _ => le_trans⟩

/-- Embeds line 654 of `convert_ticks_to_seconds`:
`tempo_map = sorted(tempos or [(0, 500_000)], key=lambda t: t[0])`. -/
def tempo_map_of (tempos : List (Int × Int)) : List (Int × Int) :=
  (if tempos.isEmpty then [((0 : Int), (500000 : Int))] else tempos).insertionSort tick_le

/-- Items of the merged tempo/event sequence: `(tick, kind, value)` where
kind `0` is a tempo entry (value = microseconds per beat) and kind `1` is a
note event (value = index into the event list), mirroring the Python tuples
`(tick, "tempo", tempo)` and `(tick, "event", index)`. -/
abbrev ConvItem := Int × Nat × Int

/-- Sort key of line 660: `(item[0], 0 if item[1] == "tempo" else 1)`,
compared lexicographically (tempo entries sort before events at equal tick). -/
def conv_le (a b : ConvItem) : Prop :=
  a.1 < b.1 ∨ (a.1 = b.1 ∧ a.2.1 ≤ b.2.1)

instance : DecidableRel conv_le :=
  fun a b => inferInstanceAs (Decidable (a.1 < b.1 ∨ (a.1 = b.1 ∧ a.2.1 ≤ b.2.1)))

instance : IsTotal ConvItem conv_le := by
  refine ⟨fun a b => ?_⟩
  rcases lt_trichotomy a.1 b.1 with h | h | h
  · exact Or.inl (Or.inl h)
  · rcases le_total a.2.1 b.2.1 with h2 | h2
    · exact Or.inl (Or.inr ⟨h, h2⟩)
    · exact Or.inr (Or.inr ⟨h.symm, h2⟩)
  · exact Or.inr (Or.inl h)

instance : IsTrans ConvItem conv_le := by
  refine ⟨fun a b c hab hbc => ?_⟩
  rcases hab with h1 | ⟨h1, h1k⟩ <;> rcases hbc with h2 | ⟨h2, h2k⟩
  · exact Or.inl (lt_trans h1 h2)
  · exact Or.inl (h2 ▸ h1)
  · exact Or.inl (h1 ▸ h2)
  · exact Or.inr ⟨h1.trans h2, le_trans h1k h2k⟩

/-- Embeds lines 655-660 of `convert_ticks_to_seconds`: build the combined
list of tempo entries and (enumerated) note events and sort it by
`(tick, 0 if tempo else 1)`. -/
def merged_of (events : List (Int × Int × Int)) (tempos : List (Int × Int)) :
    List ConvItem :=
  ((tempo_map_of tempos).map (fun (t : Int × Int) => (t.1, (0 : Nat), t.2)) ++
    events.enum.map (fun (p : Nat × Int × Int × Int) =>
      (p.2.1, (1 : Nat), (p.1 : Int)))).insertionSort conv_le

/-- Walk state of the loop in lines 661-672 of `convert_ticks_to_seconds`. -/
structure ConvState where
  current_tick : Int
  current_time : ℚ
  current_tempo : Int
  event_times : List ℚ
  deriving Repr, DecidableEq

/-- The per-beat seconds rate: `(current_tempo / 1_000_000.0) / ticks_per_beat`. -/
def conv_rate (tempo ticks_per_beat : Int) : ℚ :=
  ((tempo : ℚ) / 1000000) / (ticks_per_beat : ℚ)

/-- Embeds the body of the loop at lines 665-672 of
`convert_ticks_to_seconds`. -/
def conv_step (ticks_per_beat : Int) (st : ConvState) (item : ConvItem) : ConvState :=
  let delta_ticks := item.1 - st.current_tick
  let t := st.current_time + (delta_ticks : ℚ) * conv_rate st.current_tempo ticks_per_beat
  if item.2.1 = 0 then
    { current_tick := item.1, current_time := t, current_tempo := item.2.2,
      event_times := st.event_times }
  else
    { current_tick := item.1, current_time := t, current_tempo := st.current_tempo,
      event_times := st.event_times.set item.2.2.toNat t }

/-- Embeds `convert_ticks_to_seconds` (lines 649-676 of
`scripts/drum_sampler.py`).  The initial tempo is the first entry of the
sorted tempo map (the `headD` default is dead: the tempo map is never
empty). -/
def convert_ticks_to_seconds (events : List (Int × Int × Int))
    (tempos : List (Int × Int)) (ticks_per_beat : Int) : List (ℚ × Int × Int) :=
  let st0 : ConvState :=
    { current_tick := 0, current_time := 0,
      current_tempo := ((tempo_map_of tempos).headD (0, 500000)).2,
      event_times := List.replicate events.length 0 }
  let final := (merged_of events tempos).foldl (conv_step ticks_per_beat) st0
  events.enum.map (fun p => (final.event_times.getD p.1 0, p.2.2))

theorem conv_fold_length (tpb : Int) (items : List ConvItem) (st : ConvState) :
    (items.foldl (conv_step tpb) st).event_times.length = st.event_times.length := by
  induction items generalizing st with
  | nil => rfl
  | cons x items ih =>
    rw [List.foldl_cons, ih]
    unfold conv_step
    dsimp only
    split <;> simp

theorem conv_fold_untouched (tpb : Int) (items : List ConvItem) (st : ConvState)
    (j : Nat) (hj : ∀ x ∈ items, x.2.1 ≠ 0 → x.2.2.toNat ≠ j) :
    (items.foldl (conv_step tpb) st).event_times[j]? = st.event_times[j]? := by
  induction items generalizing st with
  | nil => rfl
  | cons x items ih =>
    rw [List.foldl_cons, ih _ (fun y hy => hj y (List.mem_cons_of_mem _ hy))]
    unfold conv_step
    dsimp only
    split
    · rfl
    case isFalse hk =>
      exact List.getElem?_set_ne (hj x (List.mem_cons_self _ _) hk)

/-- Key lemma on the walk of `convert_ticks_to_seconds`: a note event at tick
`t` with index `i` is recorded at the accumulated time
`current_time + (t - current_tick) * rate(current_tempo)` provided every tempo
entry of the sequence either lies strictly after `t` or carries the walk's
current tempo. -/
theorem conv_fold_event_time (tpb : Int) (items : List ConvItem) (st : ConvState)
    (t : Int) (i : Nat)
    (hsorted : List.Sorted conv_le items)
    (hmem : (t, 1, (i : Int)) ∈ items)
    (htempo : ∀ x ∈ items, x.2.1 = 0 → (t < x.1 ∨ x.2.2 = st.current_tempo))
    (hnodup : (items.filterMap
      (fun x => if x.2.1 = 0 then none else some x.2.2.toNat)).Nodup)
    (hi : i < st.event_times.length) :
    (items.foldl (conv_step tpb) st).event_times[i]? =
      some (st.current_time +
        ((t : ℚ) - (st.current_tick : ℚ)) * conv_rate st.current_tempo tpb) := by
  induction items generalizing st with
  | nil => simp at hmem
  | cons x items ih =>
    rw [List.foldl_cons]
    rcases List.mem_cons.mp hmem with hx | hmem2
    · subst hx
      have hcons : ((t, (1 : Nat), (i : Int)) :: items).filterMap
          (fun x => if x.2.1 = 0 then none else some x.2.2.toNat) =
          i :: items.filterMap (fun x => if x.2.1 = 0 then none else some x.2.2.toNat) := by
        simp
      rw [hcons] at hnodup
      have hnotin : ∀ y ∈ items, y.2.1 ≠ 0 → y.2.2.toNat ≠ i := by
        intro y hy hk
        have : y.2.2.toNat ∈ items.filterMap
            (fun x => if x.2.1 = 0 then none else some x.2.2.toNat) :=
          List.mem_filterMap.mpr ⟨y, hy, by rw [if_neg hk]⟩
        intro hEq
        exact (List.nodup_cons.mp hnodup).1 (hEq ▸ this)
      rw [conv_fold_untouched _ _ _ _ hnotin]
      show ((st.event_times.set ((i : Int)).toNat _))[i]? = _
      rw [Int.toNat_natCast]
      push_cast
      exact List.getElem?_set_self hi
    · have hsorted2 := (List.sorted_cons.mp hsorted).2
      have hrel := (List.sorted_cons.mp hsorted).1
      by_cases hk : x.2.1 = 0
      · have hxt : x.2.2 = st.current_tempo := by
          rcases htempo x (List.mem_cons_self _ _) hk with hlt | hEq
          · exfalso
            have := hrel _ hmem2
            unfold conv_le at this
            dsimp only at this
            omega
          · exact hEq
        have hstep : conv_step tpb st x =
            { current_tick := x.1,
              current_time := st.current_time +
                ((x.1 : ℚ) - (st.current_tick : ℚ)) * conv_rate st.current_tempo tpb,
              current_tempo := x.2.2,
              event_times := st.event_times } := by
          unfold conv_step
          rw [if_pos hk]
          push_cast
          ring_nf
        rw [hstep]
        rw [ih _ hsorted2 hmem2 ?_ ?_ ?_]
        · congr 1
          rw [hxt]
          ring
        · intro y hy hyk
          rcases htempo y (List.mem_cons_of_mem _ hy) hyk with h | h
          · exact Or.inl h
          · exact Or.inr (by rw [h]; dsimp only; rw [hxt])
        · have : ((x :: items).filterMap
              (fun x => if x.2.1 = 0 then none else some x.2.2.toNat)) =
              items.filterMap (fun x => if x.2.1 = 0 then none else some x.2.2.toNat) := by
            rw [List.filterMap_cons, if_pos hk]
          rw [this] at hnodup
          exact hnodup
        · exact hi
      · have hstep : conv_step tpb st x =
            { current_tick := x.1,
              current_time := st.current_time +
                ((x.1 : ℚ) - (st.current_tick : ℚ)) * conv_rate st.current_tempo tpb,
              current_tempo := st.current_tempo,
              event_times := st.event_times.set x.2.2.toNat
                (st.current_time +
                  ((x.1 : ℚ) - (st.current_tick : ℚ)) * conv_rate st.current_tempo tpb) } := by
          unfold conv_step
          rw [if_neg hk]
          push_cast
          ring_nf
        rw [hstep]
        rw [ih _ hsorted2 hmem2 ?_ ?_ ?_]
        · congr 1
          ring
        · intro y hy hyk
          rcases htempo y (List.mem_cons_of_mem _ hy) hyk with h | h
          · exact Or.inl h
          · exact Or.inr h
        · have : ((x :: items).filterMap
              (fun x => if x.2.1 = 0 then none else some x.2.2.toNat)) =
              x.2.2.toNat :: items.filterMap
                (fun x => if x.2.1 = 0 then none else some x.2.2.toNat) := by
            rw [List.filterMap_cons, if_neg hk]
          rw [this] at hnodup
          exact (List.nodup_cons.mp hnodup).2
        · simpa using hi

theorem merged_perm (events : List (Int × Int × Int)) (tempos : List (Int × Int)) :
    (merged_of events tempos).Perm
      ((tempo_map_of tempos).map (fun (t : Int × Int) => (t.1, (0 : Nat), t.2)) ++
        events.enum.map (fun (p : Nat × Int × Int × Int) =>
          (p.2.1, (1 : Nat), (p.1 : Int)))) :=
  List.perm_insertionSort _ _

theorem merged_sorted (events : List (Int × Int × Int)) (tempos : List (Int × Int)) :
    List.Sorted conv_le (merged_of events tempos) :=
  List.sorted_insertionSort _ _

theorem merged_mem_event (events : List (Int × Int × Int)) (tempos : List (Int × Int))
    (i : Nat) (e : Int × Int × Int) (he : events[i]? = some e) :
    (e.1, (1 : Nat), (i : Int)) ∈ merged_of events tempos := by
  refine (merged_perm events tempos).mem_iff.mpr ?_
  refine List.mem_append_right _ ?_
  refine List.mem_map.mpr ⟨(i, e), ?_, rfl⟩
  exact List.mk_mem_enum_iff_getElem?.mpr he

theorem merged_tempo_src (events : List (Int × Int × Int)) (tempos : List (Int × Int))
    (x : ConvItem) (hx : x ∈ merged_of events tempos) (hk : x.2.1 = 0) :
    ∃ a b, (a, b) ∈ tempo_map_of tempos ∧ x = (a, (0 : Nat), b) := by
  rcases List.mem_append.mp ((merged_perm events tempos).mem_iff.mp hx) with h | h
  · rcases List.mem_map.mp h with ⟨t, ht, hEq⟩
    exact ⟨t.1, t.2, ht, hEq.symm⟩
  · rcases List.mem_map.mp h with ⟨p, _, hEq⟩
    rw [← hEq] at hk
    simp at hk

theorem merged_nodup (events : List (Int × Int × Int)) (tempos : List (Int × Int)) :
    ((merged_of events tempos).filterMap
      (fun x => if x.2.1 = 0 then none else some x.2.2.toNat)).Nodup := by
  refine (List.Perm.filterMap _ (merged_perm events tempos)).nodup_iff.mpr ?_
  rw [List.filterMap_append]
  have h1 : ((tempo_map_of tempos).map
      (fun (t : Int × Int) => (t.1, (0 : Nat), t.2))).filterMap
      (fun x => if x.2.1 = 0 then none else some x.2.2.toNat) = [] := by
    rw [List.filterMap_map]
    simp [Function.comp]
  have h2 : (events.enum.map (fun (p : Nat × Int × Int × Int) =>
      (p.2.1, (1 : Nat), (p.1 : Int)))).filterMap
      (fun x => if x.2.1 = 0 then none else some x.2.2.toNat) =
      events.enum.map Prod.fst := by
    rw [List.filterMap_map]
    rw [show ((fun (x : ConvItem) => if x.2.1 = 0 then none else some x.2.2.toNat) ∘
        (fun (p : Nat × Int × Int × Int) => (p.2.1, (1 : Nat), (p.1 : Int)))) =
        (some ∘ Prod.fst) from funext fun p => by simp]
    rw [List.filterMap_eq_map]
  rw [h1, h2, List.nil_append, List.enum_map_fst]
  exact List.nodup_range _

/-- C2: `convert_ticks_to_seconds` preserves the note/velocity payloads in
order; the merged sequence is ordered by `(tick, kind)` with tempo entries
sorting before note events at equal ticks and is a permutation of the tempo
entries and enumerated events; with an empty tempo list every event is timed
at the default 500,000 microseconds per beat; and the spec's worked example
(events at ticks 0 and 480, tempo 500000 then 250000 at tick 480,
ticks_per_beat 480) yields times 0 and 1/2 seconds. -/
theorem convert_ticks_to_seconds_correct (events : List (Int × Int × Int))
    (tempos : List (Int × Int)) (tpb : Int) :
    ((convert_ticks_to_seconds events tempos tpb).map (fun e => e.2) =
      events.map (fun e => e.2)) ∧
    List.Sorted conv_le (merged_of events tempos) ∧
    (merged_of events tempos).Perm
      ((tempo_map_of tempos).map (fun (t : Int × Int) => (t.1, (0 : Nat), t.2)) ++
        events.enum.map (fun (p : Nat × Int × Int × Int) =>
          (p.2.1, (1 : Nat), (p.1 : Int)))) ∧
    (tempos = [] →
      convert_ticks_to_seconds events tempos tpb =
        events.map (fun e =>
          ((e.1 : ℚ) * ((500000 : ℚ) / 1000000) / (tpb : ℚ), e.2))) ∧
    convert_ticks_to_seconds [(0, 60, 100), (480, 62, 110)]
        [(0, 500000), (480, 250000)] 480 =
      [((0 : ℚ), 60, 100), ((1/2 : ℚ), 62, 110)] := by
  refine ⟨?_, merged_sorted events tempos, merged_perm events tempos, ?_,
    by with_unfolding_all rfl⟩
  · unfold convert_ticks_to_seconds
    rw [List.map_map]
    have : ((fun (e : ℚ × Int × Int) => e.2) ∘
        (fun (p : Nat × Int × Int × Int) =>
          (((merged_of events tempos).foldl (conv_step tpb)
            { current_tick := 0, current_time := 0,
              current_tempo := ((tempo_map_of tempos).headD (0, 500000)).2,
              event_times := List.replicate events.length 0 }).event_times.getD p.1 0,
            p.2.2))) =
        (fun (p : Nat × Int × Int × Int) => p.2.2) := rfl
    rw [this]
    apply List.ext_getElem?
    intro i
    rw [List.getElem?_map, List.getElem?_enum, List.getElem?_map]
    cases events[i]? <;> rfl
  · intro hT
    subst hT
    apply List.ext_getElem?
    intro i
    unfold convert_ticks_to_seconds
    rw [List.getElem?_map, List.getElem?_enum, List.getElem?_map]
    cases he : events[i]? with
    | none => rfl
    | some e =>
      have hi : i < events.length := by
        by_contra hge
        rw [List.getElem?_eq_none (by omega)] at he
        exact Option.noConfusion he
      have htime := conv_fold_event_time tpb (merged_of events [])
        { current_tick := 0, current_time := 0,
          current_tempo := ((tempo_map_of []).headD (0, 500000)).2,
          event_times := List.replicate events.length 0 }
        e.1 i (merged_sorted events []) (merged_mem_event events [] i e he)
        ?_ (merged_nodup events []) (by simpa using hi)
      · simp only [Option.map_some']
        rw [List.getD_eq_getElem?_getD, htime]
        simp only [Option.getD_some]
        congr 1
        refine Prod.ext ?_ rfl
        show (0 : ℚ) + ((e.1 : ℚ) - ((0 : Int) : ℚ)) * conv_rate 500000 tpb =
          (e.1 : ℚ) * ((500000 : ℚ) / 1000000) / (tpb : ℚ)
        unfold conv_rate
        push_cast
        ring
      · intro x hx hk
        rcases merged_tempo_src events [] x hx hk with ⟨a, b, hab, hxEq⟩
        have : (a, b) ∈ tempo_map_of [] := hab
        rw [show tempo_map_of [] = [((0 : Int), (500000 : Int))] from rfl] at this
        simp at this
        refine Or.inr ?_
        rw [hxEq]
        show b = _
        rw [this.2]
        rfl

/-- C3 counterexample: with tempo list `[(480, 250000)]` (non-empty, no entry
at tick 0) and ticks_per_beat 480, the event at tick 240 is timed at the
first entry's tempo (giving 1/8 s), not at the claimed default of 500000
microseconds per beat (which would give 240 * (500000/1000000) / 480 = 1/4 s). -/
theorem convert_ticks_default_tempo_counterexample :
    convert_ticks_to_seconds [((240 : Int), 60, 100)] [((480 : Int), 250000)] 480 =
      [((1/8 : ℚ), 60, 100)] ∧
    ((1/8 : ℚ)) ≠ (240 : ℚ) * ((500000 : ℚ) / 1000000) / 480 := by
  constructor
  · with_unfolding_all rfl
  · norm_num

/-- C3 (amended): the tempo map is sorted by tick and defaults to
`[(0, 500000)]` when the tempo list is empty; note events occurring strictly
before the first tempo entry's tick are timed at the first entry's tempo
(the walk's initial tempo is the earliest entry's value), not at the
500000 µs/beat default. -/
theorem tempo_map_sorted_initial_tempo (events : List (Int × Int × Int))
    (tempos : List (Int × Int)) (tpb : Int) :
    List.Sorted tick_le (tempo_map_of tempos) ∧
    (tempos = [] → tempo_map_of tempos = [(0, 500000)]) ∧
    (∀ (t0 : Int × Int) (rest : List (Int × Int)), tempo_map_of tempos = t0 :: rest →
      ∀ (i : Nat) (e : Int × Int × Int), events[i]? = some e → e.1 < t0.1 →
        (convert_ticks_to_seconds events tempos tpb)[i]? =
          some ((e.1 : ℚ) * conv_rate t0.2 tpb, e.2)) := by
  refine ⟨List.sorted_insertionSort _ _, fun h => by rw [h]; rfl, ?_⟩
  intro t0 rest h0 i e he hlt
  have hi : i < events.length := by
    by_contra hge
    rw [List.getElem?_eq_none (by omega)] at he
    exact Option.noConfusion he
  unfold convert_ticks_to_seconds
  simp only [List.getElem?_map, List.getElem?_enum, he, Option.map_some']
  have hhead : ((tempo_map_of tempos).headD (0, 500000)).2 = t0.2 := by rw [h0]; rfl
  have htime := conv_fold_event_time tpb (merged_of events tempos)
    { current_tick := 0, current_time := 0,
      current_tempo := ((tempo_map_of tempos).headD (0, 500000)).2,
      event_times := List.replicate events.length 0 }
    e.1 i (merged_sorted events tempos) (merged_mem_event events tempos i e he)
    ?_ (merged_nodup events tempos) (by simpa using hi)
  · rw [List.getD_eq_getElem?_getD, htime]
    simp only [Option.getD_some]
    congr 1
    refine Prod.ext ?_ rfl
    show (0 : ℚ) + ((e.1 : ℚ) - ((0 : Int) : ℚ)) *
        conv_rate ((tempo_map_of tempos).headD (0, 500000)).2 tpb =
      (e.1 : ℚ) * conv_rate t0.2 tpb
    rw [hhead]
    push_cast
    ring
  · intro x hx hk
    rcases merged_tempo_src events tempos x hx hk with ⟨a, b, hab, hxEq⟩
    refine Or.inl ?_
    have hsorted : List.Sorted tick_le (tempo_map_of tempos) :=
      List.sorted_insertionSort _ _
    rw [h0] at hsorted hab
    have hge : t0.1 ≤ a := by
      rcases List.mem_cons.mp hab with hEq | hmem
      · rw [← hEq]
      · exact (List.sorted_cons.mp hsorted).1 _ hmem
    rw [hxEq]
    show e.1 < a
    omega

/-- Witness for C1: a concrete two-layer instrument with a velocity tie. -/
theorem choose_layer_correct_witness :
    ∃ layer inst2,
      choose_layer { name := "tom", layers := [⟨40, 1, 0⟩, ⟨90, 1, 0⟩] } 65 (some 3) =
        some (layer, inst2) := by
  obtain ⟨layer, inst2, h, -, -, -⟩ :=
    choose_layer_correct { name := "tom", layers := [⟨40, 1, 0⟩, ⟨90, 1, 0⟩] } 65 (some 3)
      (by decide)
  exact ⟨layer, inst2, h⟩

/-- Witness for C2: the empty-tempo default applied at a concrete input. -/
theorem convert_ticks_to_seconds_correct_witness :
    convert_ticks_to_seconds [((960 : Int), 36, 101)] [] 480 = [((1 : ℚ), 36, 101)] := by
  have h := (convert_ticks_to_seconds_correct [((960 : Int), 36, 101)] [] 480).2.2.2.1 rfl
  rw [h]
  norm_num

/-- Witness for C3 (amended): the event at tick 240 before the first tempo
entry `(480, 250000)` is timed at that entry's tempo. -/
theorem tempo_map_sorted_initial_tempo_witness :
    (convert_ticks_to_seconds [((240 : Int), 60, 100)] [((480 : Int), 250000)] 480)[0]? =
      some ((240 : ℚ) * conv_rate 250000 480, 60, 100) :=
  (tempo_map_sorted_initial_tempo [((240 : Int), 60, 100)] [((480 : Int), 250000)] 480).2.2
    (480, 250000) [] rfl 0 (240, 60, 100) rfl (by norm_num)

end DrumSampler

/-- Whitespace predicate used to model Python `str.strip()`. -/
def is_space (c : Char) : Bool := c = ' ' ∨ c = '\t' ∨ c = '\n' ∨ c = '\r'

/-- Models Python `str.strip()`: drop leading and trailing whitespace. -/
def strip (s : String) : String :=
  String.mk (((s.data.dropWhile is_space).reverse.dropWhile is_space).reverse)

def parse_nat_go : List Char → Nat → Option Nat
  | [], acc => some acc
  | c :: cs, acc =>
    if '0' ≤ c ∧ c ≤ '9' then parse_nat_go cs (acc * 10 + (c.toNat - '0'.toNat))
    else none

/-- Parse a non-empty all-digit character list as a natural number. -/
def parse_nat (cs : List Char) : Option Nat :=
  match cs with
  | [] => none
  | _ => parse_nat_go cs 0

/-- Models Python `int(s)` applied to a string cell: strip surrounding
whitespace (Python's `int` tolerates it), accept an optional sign followed by
decimal digits; `none` models the `ValueError`. -/
def py_int (s : String) : Option Int :=
  match (strip s).data with
  | '-' :: rest => (parse_nat rest).map (fun n => -(n : Int))
  | '+' :: rest => (parse_nat rest).map (fun n => (n : Int))
  | cs => (parse_nat cs).map (fun n => (n : Int))

namespace DrumSampler

/-- Embeds the row loop of `parse_midicsv` (lines 679-699 of
`scripts/drum_sampler.py`).  A row is a list of CSV cells.  State threads
`(ticks_per_beat, tempos, events)`; `Except.error` models an uncaught
`ValueError` from `int(...)` (there is no try/except in this parser). -/
def parse_midicsv_go : List (List String) → Int → List (Int × Int) →
    List (Int × Int × Int) →
    Except String (List (Int × Int × Int) × List (Int × Int) × Int)
  | [], ticks_per_beat, tempos, events => .ok (events, tempos, ticks_per_beat)
  | row :: rows, ticks_per_beat, tempos, events =>
    if row.length < 3 then
      parse_midicsv_go rows ticks_per_beat tempos events
    else
      match py_int (row.getD 1 "") with
      | none => .error "ValueError: invalid int"
      | some time_tick =>
        if strip (row.getD 2 "") = "Header" ∧ 6 ≤ row.length then
          match py_int (row.getD 5 "") with
          | none => .error "ValueError: invalid int"
          | some division => parse_midicsv_go rows division tempos events
        else if strip (row.getD 2 "") = "Tempo" ∧ 4 ≤ row.length then
          match py_int (row.getD 3 "") with
          | none => .error "ValueError: invalid int"
          | some tempo =>
            parse_midicsv_go rows ticks_per_beat (tempos ++ [(time_tick, tempo)]) events
        else if (strip (row.getD 2 "") = "Note_on_c" ∨ strip (row.getD 2 "") = "Note_off_c") ∧
            6 ≤ row.length then
          match py_int (row.getD 4 "") with
          | none => .error "ValueError: invalid int"
          | some note =>
            match (if strip (row.getD 2 "") = "Note_on_c" then py_int (row.getD 5 "")
              else some 0) with
            | none => .error "ValueError: invalid int"
            | some velocity =>
              if velocity > 0 then
                parse_midicsv_go rows ticks_per_beat tempos
                  (events ++ [(time_tick, note, velocity)])
              else
                parse_midicsv_go rows ticks_per_beat tempos events
        else
          parse_midicsv_go rows ticks_per_beat tempos events

/-- Embeds `parse_midicsv` (lines 679-699): initial `ticks_per_beat` is 480
and is only overwritten by a Header row. -/
def parse_midicsv (rows : List (List String)) :
    Except String (List (Int × Int × Int) × List (Int × Int) × Int) :=
  parse_midicsv_go rows 480 [] []

theorem parse_midicsv_go_velocity_pos (rows : List (List String)) :
    ∀ (tpb : Int) (tempos : List (Int × Int)) (events : List (Int × Int × Int))
      (out : List (Int × Int × Int) × List (Int × Int) × Int),
      (∀ e ∈ events, 0 < e.2.2) →
      parse_midicsv_go rows tpb tempos events = .ok out →
      ∀ e ∈ out.1, 0 < e.2.2 := by
  induction rows with
  | nil =>
    intro tpb tempos events out hinv h
    unfold parse_midicsv_go at h
    cases h
    exact hinv
  | cons row rows ih =>
    intro tpb tempos events out hinv h
    unfold parse_midicsv_go at h
    split at h
    · exact ih _ _ _ _ hinv h
    · split at h
      · exact Except.noConfusion h
      · split at h
        · split at h
          · exact Except.noConfusion h
          · exact ih _ _ _ _ hinv h
        · split at h
          · split at h
            · exact Except.noConfusion h
            · exact ih _ _ _ _ hinv h
          · split at h
            · split at h
              · exact Except.noConfusion h
              · split at h
                · exact Except.noConfusion h
                · split at h
                  case isTrue hvel =>
                    refine ih _ _ _ _ ?_ h
                    intro e he
                    rcases List.mem_append.mp he with hold | hnew
                    · exact hinv e hold
                    · rcases List.mem_singleton.mp hnew with rfl
                      exact hvel
                  case isFalse hvel => exact ih _ _ _ _ hinv h
            · exact ih _ _ _ _ hinv h

/-- C10: every event triple returned by the drum pipeline's MIDICSV parser
has velocity strictly greater than zero (Note_off_c rows and Note_on_c rows
with velocity 0 are dropped). -/
theorem parse_midicsv_velocity_pos (rows : List (List String))
    (out : List (Int × Int × Int) × List (Int × Int) × Int)
    (h : parse_midicsv rows = .ok out) : ∀ e ∈ out.1, 0 < e.2.2 :=
  parse_midicsv_go_velocity_pos rows 480 [] [] out (by simp) h

theorem parse_midicsv_go_no_header_tpb (rows : List (List String)) :
    ∀ (tpb : Int) (tempos : List (Int × Int)) (events : List (Int × Int × Int))
      (out : List (Int × Int × Int) × List (Int × Int) × Int),
      (∀ r ∈ rows, strip (r.getD 2 "") ≠ "Header") →
      parse_midicsv_go rows tpb tempos events = .ok out →
      out.2.2 = tpb := by
  induction rows with
  | nil =>
    intro tpb tempos events out _ h
    unfold parse_midicsv_go at h
    cases h
    rfl
  | cons row rows ih =>
    intro tpb tempos events out hnh h
    have hnh0 : strip (row.getD 2 "") ≠ "Header" := hnh row (List.mem_cons_self _ _)
    have hnhr : ∀ r ∈ rows, strip (r.getD 2 "") ≠ "Header" :=
      fun r hr => hnh r (List.mem_cons_of_mem _ hr)
    unfold parse_midicsv_go at h
    split at h
    · exact ih _ _ _ _ hnhr h
    · split at h
      · exact Except.noConfusion h
      · split at h
        case isTrue hhd => exact absurd hhd.1 hnh0
        · split at h
          · split at h
            · exact Except.noConfusion h
            · exact ih _ _ _ _ hnhr h
          · split at h
            · split at h
              · exact Except.noConfusion h
              · split at h
                · exact Except.noConfusion h
                · split at h
                  · exact ih _ _ _ _ hnhr h
                  · exact ih _ _ _ _ hnhr h
            · exact ih _ _ _ _ hnhr h

/-- Embeds `DrumEvent` (lines 130-135 of `scripts/drum_sampler.py`). -/
structure DrumEvent where
  time : ℚ
  instrument : String
  velocity : Int
  pan : Option ℚ := none
  deriving Repr, DecidableEq

/-- Ordering by event time used by `sorted(events, key=lambda ev: ev.time)`. -/
def ev_le (a b : DrumEvent) : Prop := a.time ≤ b.time

instance : DecidableRel ev_le := fun a b => inferInstanceAs (Decidable (a.time ≤ b.time))

instance : IsTotal DrumEvent ev_le := ⟨fun a b => le_total a.time b.time⟩

instance : IsTrans DrumEvent ev_le := ⟨fun _ _ _ => le_trans⟩

/-- Embeds the mapping loop of `build_events_from_notes` (lines 728-737):
events whose note is absent from the note map are skipped.  The note map
(a Python dict consulted only through `.get`) is modelled as a function to
`Option String`. -/
def mapped_events (timed_events : List (ℚ × Int × Int))
    (note_map : Int → Option String) : List DrumEvent :=
  timed_events.filterMap (fun te =>
    (note_map te.2.1).map (fun instrument =>
      { time := te.1, instrument := instrument, velocity := te.2.2 }))

/-- The Python `min(event.time for event in events)` over `e0 :: rest`. -/
def start_time_of (e0 : DrumEvent) (rest : List DrumEvent) : ℚ :=
  (rest.map DrumEvent.time).foldl min e0.time

/-- Embeds `build_events_from_notes` (lines 724-745): map notes through the
note map, return `[]` when nothing mapped, otherwise shift all times down by
the minimum time and sort by time. -/
def build_events_from_notes (timed_events : List (ℚ × Int × Int))
    (note_map : Int → Option String) : List DrumEvent :=
  match mapped_events timed_events note_map with
  | [] => []
  | e0 :: rest =>
    (((e0 :: rest).map (fun ev =>
      { ev with time := ev.time - start_time_of e0 rest })).insertionSort ev_le)

theorem foldl_min_le_init (l : List ℚ) (a : ℚ) : l.foldl min a ≤ a := by
  induction l generalizing a with
  | nil => exact le_refl a
  | cons x l ih => exact le_trans (ih (min a x)) (min_le_left a x)

theorem foldl_min_le_mem (l : List ℚ) (a : ℚ) (x : ℚ) (hx : x ∈ l) :
    l.foldl min a ≤ x := by
  induction l generalizing a with
  | nil => simp at hx
  | cons y l ih =>
    rw [List.foldl_cons]
    rcases List.mem_cons.mp hx with rfl | h
    · exact le_trans (foldl_min_le_init l (min a x)) (min_le_right a x)
    · exact ih (min a y) h

theorem foldl_min_attained (l : List ℚ) (a : ℚ) :
    l.foldl min a = a ∨ l.foldl min a ∈ l := by
  induction l generalizing a with
  | nil => exact Or.inl rfl
  | cons x l ih =>
    rw [List.foldl_cons]
    rcases ih (min a x) with h | h
    · rcases le_total a x with hax | hax
      · exact Or.inl (by rw [h, min_eq_left hax])
      · exact Or.inr (by rw [h, min_eq_right hax]; exact List.mem_cons_self x l)
    · exact Or.inr (List.mem_cons_of_mem x h)

/-- C9: `build_events_from_notes` returns the mapped events sorted by time in
non-decreasing order; when a non-empty set of events maps, the output is a
permutation of the mapped events with every time shifted down by the minimum
time (relative spacing preserved), all output times are non-negative and the
first output event's time is exactly 0; when no input note is present in the
mapping, the result is empty. -/
theorem build_events_from_notes_correct (timed_events : List (ℚ × Int × Int))
    (note_map : Int → Option String) :
    List.Sorted ev_le (build_events_from_notes timed_events note_map) ∧
    ((∀ te ∈ timed_events, note_map te.2.1 = none) →
      build_events_from_notes timed_events note_map = []) ∧
    (∀ (e0 : DrumEvent) (rest : List DrumEvent),
      mapped_events timed_events note_map = e0 :: rest →
      (build_events_from_notes timed_events note_map).Perm
        ((e0 :: rest).map (fun ev =>
          { ev with time := ev.time - start_time_of e0 rest })) ∧
      (∀ ev ∈ build_events_from_notes timed_events note_map, 0 ≤ ev.time) ∧
      (∃ hd tl, build_events_from_notes timed_events note_map = hd :: tl ∧
        hd.time = 0)) := by
  refine ⟨?_, ?_, ?_⟩
  · unfold build_events_from_notes
    split
    · exact List.sorted_nil
    · exact List.sorted_insertionSort _ _
  · intro hnone
    unfold build_events_from_notes
    have : mapped_events timed_events note_map = [] := by
      unfold mapped_events
      rw [List.filterMap_eq_nil_iff]
      intro te hte
      rw [hnone te hte]
      rfl
    rw [this]
  · intro e0 rest hm
    have hbuild : build_events_from_notes timed_events note_map =
        ((e0 :: rest).map (fun ev =>
          { ev with time := ev.time - start_time_of e0 rest })).insertionSort ev_le := by
      unfold build_events_from_notes
      rw [hm]
    have hperm : (build_events_from_notes timed_events note_map).Perm
        ((e0 :: rest).map (fun ev =>
          { ev with time := ev.time - start_time_of e0 rest })) := by
      rw [hbuild]
      exact List.perm_insertionSort _ _
    have hstart_le : ∀ ev ∈ e0 :: rest, start_time_of e0 rest ≤ ev.time := by
      intro ev hev
      rcases List.mem_cons.mp hev with rfl | hev
      · exact foldl_min_le_init _ _
      · exact foldl_min_le_mem _ _ _ (List.mem_map.mpr ⟨ev, hev, rfl⟩)
    have hnonneg : ∀ ev ∈ build_events_from_notes timed_events note_map,
        0 ≤ ev.time := by
      intro ev hev
      rcases List.mem_map.mp (hperm.mem_iff.mp hev) with ⟨orig, horig, rfl⟩
      have := hstart_le orig horig
      simp only
      linarith
    refine ⟨hperm, hnonneg, ?_⟩
    have hzero : ∃ z ∈ build_events_from_notes timed_events note_map, z.time = 0 := by
      rcases foldl_min_attained (rest.map DrumEvent.time) e0.time with h | h
      · refine ⟨{ e0 with time := e0.time - start_time_of e0 rest },
          hperm.mem_iff.mpr (List.mem_map.mpr ⟨e0, List.mem_cons_self _ _, rfl⟩), ?_⟩
        show e0.time - start_time_of e0 rest = 0
        unfold start_time_of
        rw [h]
        ring
      · rcases List.mem_map.mp h with ⟨m, hmem, hmt⟩
        refine ⟨{ m with time := m.time - start_time_of e0 rest },
          hperm.mem_iff.mpr
            (List.mem_map.mpr ⟨m, List.mem_cons_of_mem _ hmem, rfl⟩), ?_⟩
        show m.time - start_time_of e0 rest = 0
        unfold start_time_of
        rw [hmt]
        ring
    have hsorted : List.Sorted ev_le (build_events_from_notes timed_events note_map) := by
      rw [hbuild]
      exact List.sorted_insertionSort _ _
    have hlen : build_events_from_notes timed_events note_map ≠ [] := by
      intro hnil
      rcases hzero with ⟨z, hz, _⟩
      rw [hnil] at hz
      simp at hz
    cases hb : build_events_from_notes timed_events note_map with
    | nil => exact absurd hb hlen
    | cons hd tl =>
      refine ⟨hd, tl, rfl, ?_⟩
      rcases hzero with ⟨z, hz, hz0⟩
      rw [hb] at hz hsorted
      have hge : (0 : ℚ) ≤ hd.time :=
        hnonneg hd (by rw [hb]; exact List.mem_cons_self _ _)
      have hle : hd.time ≤ 0 := by
        rcases List.mem_cons.mp hz with rfl | hzin
        · exact le_of_eq hz0
        · rw [← hz0]
          exact (List.sorted_cons.mp hsorted).1 z hzin
      linarith

/-- Witness for C10: a concrete parse whose single event has velocity 100. -/
theorem parse_midicsv_velocity_pos_witness :
    parse_midicsv [["1", "0", "Note_on_c", "9", "36", "100"]] =
      .ok ([((0 : Int), 36, 100)], [], 480) ∧
    (0 : Int) < (((0 : Int), (36 : Int), (100 : Int)) : Int × Int × Int).2.2 :=
  ⟨by rfl,
    parse_midicsv_velocity_pos [["1", "0", "Note_on_c", "9", "36", "100"]]
      ([(0, 36, 100)], [], 480) (by rfl) (0, 36, 100) (by simp)⟩

/-- Witness for C9: two mapped drum notes; the output is time-sorted and its
first event's time is exactly 0. -/
theorem build_events_from_notes_correct_witness :
    List.Sorted ev_le (build_events_from_notes [((5 : ℚ), 36, 100), ((2 : ℚ), 38, 90)]
      (fun n => if n = 36 then some "kick" else if n = 38 then some "snare" else none)) ∧
    ∃ hd tl,
      build_events_from_notes [((5 : ℚ), 36, 100), ((2 : ℚ), 38, 90)]
        (fun n => if n = 36 then some "kick" else if n = 38 then some "snare" else none) =
        hd :: tl ∧ hd.time = 0 := by
  have h := build_events_from_notes_correct [((5 : ℚ), 36, 100), ((2 : ℚ), 38, 90)]
    (fun n => if n = 36 then some "kick" else if n = 38 then some "snare" else none)
  exact ⟨h.1,
    (h.2.2 { time := 5, instrument := "kick", velocity := 100 }
      [{ time := 2, instrument := "snare", velocity := 90 }] rfl).2.2⟩

end DrumSampler

namespace PianoSampler

/-- Embeds `NoteEvent` (lines 66-71 of `scripts/piano_sampler.py`). -/
structure NoteEvent where
  start : ℚ
  duration : ℚ
  note : Int
  velocity : Int
  deriving Repr, DecidableEq

/-- Embeds `PerformanceStyle` (lines 74-105); only the scalar shaping fields
used by the scheduling logic are carried (the FX fields configure synth
parameters outside any claim). -/
structure PerformanceStyle where
  name : String
  description : String := ""
  amp_scale : ℚ := 2
  amp_exponent : ℚ := 1
  dynamic_curve : ℚ := 1
  dynamic_bias : ℚ := 0
  attack : ℚ := 0
  legato : ℚ := 1
  release_scale : ℚ := 35/100
  release_min : ℚ := 1/2
  release_max : ℚ := 4
  timing_jitter : ℚ := 0
  pan_mode : String := "random"
  pan_jitter : ℚ := 0
  melody_gain : ℚ := 1
  accompaniment_gain : ℚ := 1
  use_fx : Bool := false
  deriving Repr, DecidableEq

/-- `NOTE_RANGE = range(20, 111)` (line 61): start of the supported range. -/
def note_range_start : Int := 20

/-- `NOTE_RANGE.stop` (line 61). -/
def note_range_stop : Int := 111

/-- `len(NOTE_RANGE)` = 91 entries per dynamic tier. -/
def note_range_size : Int := 91

/-- `SAMPLES_PER_DYNAMIC` (line 62). -/
def samples_per_dynamic : Int := 23

/-- Embeds `make_lookup` (lines 154-162): map a MIDI note and dynamic tier to
the sample index to load and the pitch offset (in semitones) from that
sample's recorded pitch.  `math.floor(note / 12)` on an int is floor
division, `Int.fdiv`; `note % 12` is Python's nonnegative mod, `Int.emod`. -/
def make_lookup (note : Int) (dynamic : Int) : Int × Int :=
  let octave := Int.fdiv note 12 - 2
  let degree := (Int.emod note 12).toNat
  let sampled_note : List Int := [1, 1, 1, 1, 2, 2, 2, 3, 3, 3, 3, 3]
  let note_deltas : List Int := [-1, 0, 1, 2, -1, 0, 1, -2, -1, 0, 1, 2]
  let dynamic_offset := dynamic * samples_per_dynamic
  let sample_to_get := octave * 3 + sampled_note.getD degree 0 + dynamic_offset
  let pitch := note_deltas.getD degree 0
  (sample_to_get, pitch)

/-- Embeds `build_lookup` (lines 165-175): one row of 91 entries per dynamic
tier, notes enumerated over `NOTE_RANGE`. -/
def build_lookup (quiet : Bool) : List Int × List Int × Int :=
  let dynamic_count : Nat := if quiet then 2 else 3
  let max_dynamic : Int := if quiet then 1 else 2
  let pairs := (List.range dynamic_count).flatMap (fun d =>
    (List.range 91).map (fun k =>
      make_lookup (note_range_start + (k : Int)) (d : Int)))
  (pairs.map Prod.fst, pairs.map Prod.snd, max_dynamic)

/-- Embeds `clamp_note_and_dynamic` (lines 178-181): clamp the note into
`[NOTE_RANGE.start, NOTE_RANGE.stop - 1]` and the floored dynamic into
`[0, max_dynamic]`. -/
def clamp_note_and_dynamic (note : ℚ) (dynamic : ℚ) (max_dynamic : Int) : ℚ × Int :=
  (max (min note ((note_range_stop : ℚ) - 1)) (note_range_start : ℚ),
    max (min ⌊dynamic⌋ max_dynamic) 0)

/-- Embeds `select_sample` (lines 184-197).  The second component is the
semitone argument passed to `midiratio` (line 196); the playback rate itself
is `midiratio(s) = 2 ** (s / 12)`, stated over `ℝ` in the theorems since the
embedding keeps the exact rational exponent.  The `getD 0` defaults are dead
for the tables produced by `build_lookup` (the index is in bounds). -/
def select_sample (note : ℚ) (dynamic : ℚ) (indices : List Int)
    (pitches : List Int) (max_dynamic : Int) : Int × ℚ :=
  let clamped := clamp_note_and_dynamic note dynamic max_dynamic
  let note_floor := ⌊clamped.1⌋
  let index := (note_floor - note_range_start + clamped.2 * note_range_size).toNat
  let sample_index := indices.getD index 0
  let pitch := pitches.getD index 0
  (sample_index, (pitch : ℚ) + (clamped.1 - (note_floor : ℚ)))

/-- The pure per-event shaping computed inside `schedule_note_events`
(lines 714-726): release clamp, sustain from legato, and the optional timing
jitter floored at the schedule's start time.  The sampled uniform jitter
`rng.uniform(-timing_jitter, timing_jitter)` is passed in as `jitter`.
Returns `(note_start, sustain, release)`. -/
def schedule_note_event_timing (performance : PerformanceStyle) (start_time : ℚ)
    (event : NoteEvent) (jitter : ℚ) : ℚ × ℚ × ℚ :=
  let release := max performance.release_min
    (min performance.release_max (event.duration * performance.release_scale))
  let sustain := max 0 (event.duration * performance.legato)
  let note_start0 := start_time + event.start
  let note_start :=
    if performance.timing_jitter ≠ 0 then max start_time (note_start0 + jitter)
    else note_start0
  (note_start, sustain, release)

/-- C4: `select_sample` clamps the note into `[20, 110]` and the floored
dynamic into `[0, max_dynamic]`, reads the lookup entry at index
`floor(note) - 20 + dynamic * 91`, and returns that entry's sample index
together with the `midiratio` semitone argument
`stored_pitch_offset + (clamped_note - floor(clamped_note))`, so the playback
rate `2 ** (s / 12)` equals `2 ** ((stored_pitch_offset + fractional_note_remainder) / 12)`. -/
theorem select_sample_correct (note dynamic : ℚ) (indices pitches : List Int)
    (max_dynamic : Int) :
    select_sample note dynamic indices pitches max_dynamic =
      (indices.getD (⌊max (min note 110) 20⌋ - 20 +
          (max (min ⌊dynamic⌋ max_dynamic) 0) * 91).toNat 0,
        ((pitches.getD (⌊max (min note 110) 20⌋ - 20 +
          (max (min ⌊dynamic⌋ max_dynamic) 0) * 91).toNat 0 : Int) : ℚ) +
          (max (min note 110) 20 - ((⌊max (min note 110) 20⌋ : Int) : ℚ))) ∧
    (2 : ℝ) ^ ((((select_sample note dynamic indices pitches max_dynamic).2 : ℚ) : ℝ) / 12) =
      (2 : ℝ) ^ ((((pitches.getD (⌊max (min note 110) 20⌋ - 20 +
          (max (min ⌊dynamic⌋ max_dynamic) 0) * 91).toNat 0 : Int) : ℝ) +
        (((max (min note 110) 20 : ℚ) : ℝ) -
          ((⌊max (min note 110) 20⌋ : Int) : ℝ))) / 12) := by
  have h1 : select_sample note dynamic indices pitches max_dynamic =
      (indices.getD (⌊max (min note 110) 20⌋ - 20 +
          (max (min ⌊dynamic⌋ max_dynamic) 0) * 91).toNat 0,
        ((pitches.getD (⌊max (min note 110) 20⌋ - 20 +
          (max (min ⌊dynamic⌋ max_dynamic) 0) * 91).toNat 0 : Int) : ℚ) +
          (max (min note 110) 20 - ((⌊max (min note 110) 20⌋ : Int) : ℚ))) := by
    unfold select_sample clamp_note_and_dynamic
    norm_num [note_range_start, note_range_stop, note_range_size]
  refine ⟨h1, ?_⟩
  rw [h1]
  push_cast
  ring_nf

/-- Exhaustive bound check over the lookup tables of `build_lookup`: every
in-range (note, dynamic) index is within bounds, every stored sample index
lies in `[0, 22 + max_dynamic * 23]` and every stored pitch offset lies in
`[-2, 2]`. -/
def lookup_check (quiet : Bool) : Bool :=
  match build_lookup quiet with
  | (indices, pitches, max_dynamic) =>
    (List.range 91).all (fun k =>
      (List.range (max_dynamic.toNat + 1)).all (fun d =>
        decide (
          ((note_range_start + (k : Int)) - 20 + (d : Int) * 91).toNat < indices.length ∧
          ((note_range_start + (k : Int)) - 20 + (d : Int) * 91).toNat < pitches.length ∧
          0 ≤ indices.getD ((note_range_start + (k : Int)) - 20 + (d : Int) * 91).toNat 0 ∧
          indices.getD ((note_range_start + (k : Int)) - 20 + (d : Int) * 91).toNat 0 ≤
            22 + max_dynamic * 23 ∧
          -2 ≤ pitches.getD ((note_range_start + (k : Int)) - 20 + (d : Int) * 91).toNat 0 ∧
          pitches.getD ((note_range_start + (k : Int)) - 20 + (d : Int) * 91).toNat 0 ≤ 2)))

set_option maxRecDepth 10000 in
theorem lookup_check_holds : lookup_check true = true ∧ lookup_check false = true := by
  decide

theorem lookup_check_spec (quiet : Bool) (hq : lookup_check quiet = true)
    (k d : Nat) (hk : k < 91) (hd : d < (build_lookup quiet).2.2.toNat + 1) :
    ((note_range_start + (k : Int)) - 20 + (d : Int) * 91).toNat <
      (build_lookup quiet).1.length ∧
    ((note_range_start + (k : Int)) - 20 + (d : Int) * 91).toNat <
      (build_lookup quiet).2.1.length ∧
    0 ≤ (build_lookup quiet).1.getD
      ((note_range_start + (k : Int)) - 20 + (d : Int) * 91).toNat 0 ∧
    (build_lookup quiet).1.getD
      ((note_range_start + (k : Int)) - 20 + (d : Int) * 91).toNat 0 ≤
      22 + (build_lookup quiet).2.2 * 23 ∧
    -2 ≤ (build_lookup quiet).2.1.getD
      ((note_range_start + (k : Int)) - 20 + (d : Int) * 91).toNat 0 ∧
    (build_lookup quiet).2.1.getD
      ((note_range_start + (k : Int)) - 20 + (d : Int) * 91).toNat 0 ≤ 2 := by
  have hq2 : (List.range 91).all (fun k =>
      (List.range ((build_lookup quiet).2.2.toNat + 1)).all (fun d =>
        decide (
          ((note_range_start + (k : Int)) - 20 + (d : Int) * 91).toNat <
            (build_lookup quiet).1.length ∧
          ((note_range_start + (k : Int)) - 20 + (d : Int) * 91).toNat <
            (build_lookup quiet).2.1.length ∧
          0 ≤ (build_lookup quiet).1.getD
            ((note_range_start + (k : Int)) - 20 + (d : Int) * 91).toNat 0 ∧
          (build_lookup quiet).1.getD
            ((note_range_start + (k : Int)) - 20 + (d : Int) * 91).toNat 0 ≤
            22 + (build_lookup quiet).2.2 * 23 ∧
          -2 ≤ (build_lookup quiet).2.1.getD
            ((note_range_start + (k : Int)) - 20 + (d : Int) * 91).toNat 0 ∧
          (build_lookup quiet).2.1.getD
            ((note_range_start + (k : Int)) - 20 + (d : Int) * 91).toNat 0 ≤ 2))) =
      true := hq
  rw [List.all_eq_true] at hq2
  have h1 := hq2 k (List.mem_range.mpr hk)
  rw [List.all_eq_true] at h1
  exact of_decide_eq_true (h1 d (List.mem_range.mpr hd))

/-- C5: for the tables produced by `build_lookup`, every integer MIDI note in
`[20, 110]` and every dynamic tier in `[0, max_dynamic]`, `select_sample`
reads an in-bounds lookup index, returns a sample index in
`[0, 22 + max_dynamic * 23]`, and its stored pitch offset lies in `[-2, 2]`,
so the playback rate `2 ^ (s / 12)` lies in `[2 ^ (-2/12), 2 ^ (3/12))`. -/
theorem select_sample_bounds (quiet : Bool) (note dynamic : Int)
    (h1 : 20 ≤ note) (h2 : note ≤ 110) (h3 : 0 ≤ dynamic)
    (h4 : dynamic ≤ (build_lookup quiet).2.2) :
    ∃ s : Int,
      select_sample ((note : Int) : ℚ) ((dynamic : Int) : ℚ) (build_lookup quiet).1
          (build_lookup quiet).2.1 (build_lookup quiet).2.2 =
        ((build_lookup quiet).1.getD (note - 20 + dynamic * 91).toNat 0, (s : ℚ)) ∧
      (note - 20 + dynamic * 91).toNat < (build_lookup quiet).1.length ∧
      (note - 20 + dynamic * 91).toNat < (build_lookup quiet).2.1.length ∧
      s = (build_lookup quiet).2.1.getD (note - 20 + dynamic * 91).toNat 0 ∧
      0 ≤ (build_lookup quiet).1.getD (note - 20 + dynamic * 91).toNat 0 ∧
      (build_lookup quiet).1.getD (note - 20 + dynamic * 91).toNat 0 ≤
        22 + (build_lookup quiet).2.2 * 23 ∧
      -2 ≤ s ∧ s ≤ 2 ∧
      (2 : ℝ) ^ ((-2 : ℝ) / 12) ≤ (2 : ℝ) ^ ((s : ℝ) / 12) ∧
      (2 : ℝ) ^ ((s : ℝ) / 12) < (2 : ℝ) ^ ((3 : ℝ) / 12) := by
  have hnote_clamp : max (min ((note : Int) : ℚ) 110) 20 = ((note : Int) : ℚ) := by
    rw [min_eq_left (by exact_mod_cast h2)]
    exact max_eq_left (by exact_mod_cast h1)
  have hsel := (select_sample_correct ((note : Int) : ℚ) ((dynamic : Int) : ℚ)
    (build_lookup quiet).1 (build_lookup quiet).2.1 (build_lookup quiet).2.2).1
  rw [hnote_clamp, Int.floor_intCast, Int.floor_intCast, min_eq_left h4,
    max_eq_left h3, sub_self, add_zero] at hsel
  have hk : (note - 20).toNat < 91 := by omega
  have hd : dynamic.toNat < (build_lookup quiet).2.2.toNat + 1 := by
    have : (0 : Int) ≤ (build_lookup quiet).2.2 := le_trans h3 h4
    omega
  have hq : lookup_check quiet = true := by
    cases quiet
    · exact lookup_check_holds.2
    · exact lookup_check_holds.1
  have hchk := lookup_check_spec quiet hq (note - 20).toNat dynamic.toNat hk hd
  have hidx : ((note_range_start + (((note - 20).toNat : Nat) : Int)) - 20 +
      ((dynamic.toNat : Nat) : Int) * 91).toNat = (note - 20 + dynamic * 91).toNat := by
    rw [Int.toNat_of_nonneg (by omega), Int.toNat_of_nonneg h3]
    norm_num [note_range_start]
  rw [hidx] at hchk
  obtain ⟨hlen1, hlen2, hge0, hle, hpge, hple⟩ := hchk
  refine ⟨(build_lookup quiet).2.1.getD (note - 20 + dynamic * 91).toNat 0,
    hsel, hlen1, hlen2, rfl, hge0, hle, hpge, hple, ?_, ?_⟩
  · rw [Real.rpow_le_rpow_left_iff one_lt_two]
    have hcast : (-2 : ℝ) ≤
        (((build_lookup quiet).2.1.getD (note - 20 + dynamic * 91).toNat 0 : Int) : ℝ) := by
      exact_mod_cast hpge
    linarith
  · rw [Real.rpow_lt_rpow_left_iff one_lt_two]
    have hcast :
        (((build_lookup quiet).2.1.getD (note - 20 + dynamic * 91).toNat 0 : Int) : ℝ) ≤ 2 := by
      exact_mod_cast hple
    linarith

/-- Witness for C5 at note 60, dynamic tier 1 of the loud (3-tier) table. -/
theorem select_sample_bounds_witness :
    ∃ s : Int,
      select_sample (((60 : Int) : Int) : ℚ) (((1 : Int) : Int) : ℚ) (build_lookup false).1
          (build_lookup false).2.1 (build_lookup false).2.2 =
        ((build_lookup false).1.getD ((60 : Int) - 20 + 1 * 91).toNat 0, (s : ℚ)) ∧
      -2 ≤ s ∧ s ≤ 2 := by
  obtain ⟨s, hsel, -, -, -, -, -, hge, hle, -, -⟩ :=
    select_sample_bounds false 60 1 (by norm_num) (by norm_num) (by norm_num)
      (by decide)
  exact ⟨s, hsel, hge, hle⟩

end PianoSampler

namespace PianoSampler

/-- C8: for every scheduled note event, the release equals
`clamp(duration * release_scale, release_min, release_max)`, the sustain
equals `max(0, duration * legato)`, and when timing jitter is applied the
scheduled start is floored at the schedule's `start_time` (never earlier);
without jitter the start is exactly `start_time + event.start`. -/
theorem schedule_note_event_timing_correct (performance : PerformanceStyle)
    (start_time : ℚ) (event : NoteEvent) (jitter : ℚ) :
    (schedule_note_event_timing performance start_time event jitter).2.2 =
      max performance.release_min
        (min performance.release_max (event.duration * performance.release_scale)) ∧
    (schedule_note_event_timing performance start_time event jitter).2.1 =
      max 0 (event.duration * performance.legato) ∧
    (performance.timing_jitter ≠ 0 →
      start_time ≤ (schedule_note_event_timing performance start_time event jitter).1) ∧
    (performance.timing_jitter = 0 →
      (schedule_note_event_timing performance start_time event jitter).1 =
        start_time + event.start) := by
  refine ⟨rfl, rfl, ?_, ?_⟩
  · intro h
    unfold schedule_note_event_timing
    simp only [if_pos h]
    exact le_max_left _ _
  · intro h
    unfold schedule_note_event_timing
    simp [h]

/-- Witness for C8 with non-zero jitter 1/250 pulling the note backwards:
the scheduled start stays at or after the schedule start time 2. -/
theorem schedule_note_event_timing_correct_witness :
    ((1 : ℚ)/250 ≠ 0) ∧
    (2 : ℚ) ≤ (schedule_note_event_timing
      { name := "hall", timing_jitter := 1/250 } 2
      { start := 0, duration := 1, note := 60, velocity := 80 } (-1)).1 :=
  ⟨by norm_num,
    (schedule_note_event_timing_correct { name := "hall", timing_jitter := 1/250 } 2
      { start := 0, duration := 1, note := 60, velocity := 80 } (-1)).2.2.1
      (by norm_num)⟩

/-- Models `mido.tick2second(tick, ticks_per_beat, tempo)` (external mido
helper used at line 564): `tick / ticks_per_beat * tempo / 1e6` seconds. -/
def tick2second (tick ticks_per_beat tempo : Int) : ℚ :=
  ((tick : ℚ) / (ticks_per_beat : ℚ)) * ((tempo : ℚ) / 1000000)

/-- Models a `mido` message as yielded by `mido.merge_tracks` inside
`parse_midi_file` (lines 563-585): the type tag, delta time in ticks, and the
attributes the loop reads. -/
structure MidoMessage where
  msg_type : String
  time : Int
  channel : Int := 0
  note : Int := 0
  velocity : Int := 0
  tempo : Int := 0
  deriving Repr, DecidableEq

/-- The note-matching state of `parse_midi_file` (lines 558-562): running
tempo, collected events, the pending note-on stacks keyed by
`(channel, note)` (the Python dict is only read pointwise, so it is modelled
as a function), and the running time in seconds. -/
structure MidiState where
  tempo : Int
  events : List NoteEvent
  active : Int × Int → List (ℚ × Int)
  current_time : ℚ

/-- Embeds the body of the message loop of `parse_midi_file`
(lines 563-585): advance time, update tempo, push pending note-ons at the
back of their key's stack, and match note-offs (or note-ons with velocity 0)
against the front of the stack, ignoring unmatched ones. -/
def parse_midi_step (ticks_per_beat : Int) (st : MidiState) (m : MidoMessage) :
    MidiState :=
  let now := st.current_time + tick2second m.time ticks_per_beat st.tempo
  if m.msg_type = "set_tempo" then
    { st with current_time := now, tempo := m.tempo }
  else if m.msg_type = "note_on" ∧ m.velocity > 0 then
    { st with
      current_time := now,
      active := Function.update st.active (m.channel, m.note)
        (st.active (m.channel, m.note) ++ [(now, m.velocity)]) }
  else if m.msg_type = "note_off" ∨ m.msg_type = "note_on" then
    match st.active (m.channel, m.note) with
    | [] => { st with current_time := now }
    | (start_time, velocity) :: stack =>
      { st with
        current_time := now,
        active := Function.update st.active (m.channel, m.note) stack,
        events := st.events ++
          [{ start := start_time, duration := max 0 (now - start_time),
             note := m.note, velocity := velocity }] }
  else { st with current_time := now }

/-- Embeds `parse_midi_file` (lines 550-586) applied to the message stream
delivered by the external mido reader. -/
def parse_midi_file (ticks_per_beat : Int) (messages : List MidoMessage) :
    List NoteEvent :=
  (messages.foldl (parse_midi_step ticks_per_beat)
    { tempo := 500000, events := [], active := fun _ => [], current_time := 0 }).events

/-- Embeds the collection pass of `parse_midicsv_file` (lines 592-608): keep
`(tick, original_index, row)` for every row with a parsable tick, record the
Header division (later Header rows overwrite earlier ones), and skip Header
rows whose division fails to parse. -/
def collect_rows_go : List (List String) → Nat → List (Int × Nat × List String) →
    Option Int → List (Int × Nat × List String) × Option Int
  | [], _, acc, ticks_per_beat => (acc, ticks_per_beat)
  | row :: rest, index, acc, ticks_per_beat =>
    if row.isEmpty then collect_rows_go rest (index + 1) acc ticks_per_beat
    else
      match py_int (row.getD 1 "") with
      | none => collect_rows_go rest (index + 1) acc ticks_per_beat
      | some tick =>
        if (if 2 < row.length then strip (row.getD 2 "") else "") = "Header" then
          match py_int (row.getD 5 "") with
          | none => collect_rows_go rest (index + 1) acc ticks_per_beat
          | some division =>
            collect_rows_go rest (index + 1) (acc ++ [(tick, index, row)]) (some division)
        else
          collect_rows_go rest (index + 1) (acc ++ [(tick, index, row)]) ticks_per_beat

/-- The `rows.sort(key=lambda item: (item[0], item[1]))` comparison of
line 613: lexicographic on `(tick, original index)`. -/
def row_le (a b : Int × Nat × List String) : Prop :=
  a.1 < b.1 ∨ (a.1 = b.1 ∧ a.2.1 ≤ b.2.1)

instance : DecidableRel row_le :=
  fun a b => inferInstanceAs (Decidable (a.1 < b.1 ∨ (a.1 = b.1 ∧ a.2.1 ≤ b.2.1)))

instance : IsTotal (Int × Nat × List String) row_le := by
  refine ⟨fun a b => ?_⟩
  rcases lt_trichotomy a.1 b.1 with h | h | h
  · exact Or.inl (Or.inl h)
  · rcases le_total a.2.1 b.2.1 with h2 | h2
    · exact Or.inl (Or.inr ⟨h, h2⟩)
    · exact Or.inr (Or.inr ⟨h.symm, h2⟩)
  · exact Or.inr (Or.inl h)

instance : IsTrans (Int × Nat × List String) row_le := by
  refine ⟨fun a b c hab hbc => ?_⟩
  rcases hab with h1 | ⟨h1, h1k⟩ <;> rcases hbc with h2 | ⟨h2, h2k⟩
  · exact Or.inl (lt_trans h1 h2)
  · exact Or.inl (h2 ▸ h1)
  · exact Or.inl (h1 ▸ h2)
  · exact Or.inr ⟨h1.trans h2, le_trans h1k h2k⟩

/-- The state of the second pass of `parse_midicsv_file` (lines 610-614). -/
structure CsvState where
  tempo : Int
  events : List NoteEvent
  active : Int × Int → List (ℚ × Int)
  current_time : ℚ
  last_tick : Int

/-- Embeds the time advance at the top of the sorted-row loop of
`parse_midicsv_file` (lines 617-621): time moves only when the tick strictly
increases, by `(delta_ticks * tempo) / (ticks_per_beat * 1_000_000)`
seconds.  The note-off matching below is FIFO per `(channel, note)`;
`int(row[3])` (the channel) is read outside the try/except, so its failure
is an uncaught `ValueError`, modelled as `Except.error`. -/
def csv_advance_time (ticks_per_beat : Int) (st : CsvState) (tick : Int) : CsvState :=
  if st.last_tick < tick then
    { st with
      current_time := st.current_time +
        (((tick - st.last_tick) * st.tempo : Int) : ℚ) /
          ((ticks_per_beat * 1000000 : Int) : ℚ),
      last_tick := tick }
  else st

/-- Embeds the dispatch on the row's event type inside the sorted-row loop
of `parse_midicsv_file` (lines 622-651), applied after the time advance. -/
def parse_midicsv_file_step (ticks_per_beat : Int) (st : CsvState)
    (item : Int × Nat × List String) : Except String CsvState :=
  let row := item.2.2
  let st1 := csv_advance_time ticks_per_beat st item.1
  let event := if 2 < row.length then strip (row.getD 2 "") else ""
  if event = "Tempo" then
    match py_int (row.getD 3 "") with
    | none => .ok st1
    | some tempo => .ok { st1 with tempo := tempo }
  else if event = "Note_on_c" ∨ event = "Note_off_c" then
    match py_int (row.getD 4 ""), py_int (row.getD 5 "") with
    | some note, some velocity =>
      if event = "Note_on_c" ∧ velocity > 0 then
        match py_int (row.getD 3 "") with
        | none => .error "ValueError: invalid channel"
        | some channel =>
          .ok { st1 with
            active := Function.update st1.active (channel, note)
              (st1.active (channel, note) ++ [(st1.current_time, velocity)]) }
      else
        match py_int (row.getD 3 "") with
        | none => .error "ValueError: invalid channel"
        | some channel =>
          match st1.active (channel, note) with
          | [] => .ok st1
          | (start_time, start_velocity) :: stack =>
            .ok { st1 with
              active := Function.update st1.active (channel, note) stack,
              events := st1.events ++
                [{ start := start_time,
                   duration := max 0 (st1.current_time - start_time),
                   note := note, velocity := start_velocity }] }
    | _, _ => .ok st1
  else .ok st1

/-- Embeds `parse_midicsv_file` (lines 589-651): collect rows and the Header
division, fail when no Header division was found, then sort by
`(tick, index)` and fold the row loop. -/
def parse_midicsv_file (rows : List (List String)) : Except String (List NoteEvent) :=
  match collect_rows_go rows 0 [] none with
  | (_, none) => .error "Missing Header division"
  | (collected, some ticks_per_beat) =>
    ((collected.insertionSort row_le).foldlM (parse_midicsv_file_step ticks_per_beat)
      { tempo := 500000, events := [], active := fun _ => [], current_time := 0,
        last_tick := 0 }).map (fun st => st.events)

end PianoSampler

namespace PianoSampler

theorem collect_rows_go_no_header (rows : List (List String)) :
    ∀ (index : Nat) (acc : List (Int × Nat × List String)) (tpb : Option Int),
      (∀ r ∈ rows, strip (r.getD 2 "") ≠ "Header") →
      (collect_rows_go rows index acc tpb).2 = tpb := by
  induction rows with
  | nil => intro index acc tpb _; rfl
  | cons row rest ih =>
    intro index acc tpb hnh
    have hnh0 : strip (row.getD 2 "") ≠ "Header" := hnh row (List.mem_cons_self _ _)
    have hnhr : ∀ r ∈ rest, strip (r.getD 2 "") ≠ "Header" :=
      fun r hr => hnh r (List.mem_cons_of_mem _ hr)
    unfold collect_rows_go
    split
    · exact ih _ _ _ hnhr
    · split
      · exact ih _ _ _ hnhr
      case h_2 tick heq =>
        by_cases hlen : 2 < row.length
        · rw [if_pos hlen, if_neg hnh0]
          exact ih _ _ _ hnhr
        · rw [if_neg hlen, if_neg (by decide : ¬("" = "Header"))]
          exact ih _ _ _ hnhr

end PianoSampler

/-- C6 counterexample: a MIDICSV input with no Header row on which the drum
pipeline's `parse_midicsv` succeeds (with the default 480 ticks per beat)
instead of failing with a format error. -/
theorem parse_midicsv_missing_header_counterexample :
    DrumSampler.parse_midicsv [["1", "0", "Note_on_c", "9", "36", "100"]] =
      .ok ([((0 : Int), 36, 100)], [], 480) := by
  rfl

/-- C6 (amended): on MIDICSV input with no Header row, only the piano
pipeline's `parse_midicsv_file` fails with a format error; the drum
pipeline's `parse_midicsv` proceeds, defaulting `ticks_per_beat` to 480. -/
theorem missing_header_behaviour (rows : List (List String))
    (hnh : ∀ r ∈ rows, strip (r.getD 2 "") ≠ "Header") :
    PianoSampler.parse_midicsv_file rows = .error "Missing Header division" ∧
    (∀ out, DrumSampler.parse_midicsv rows = .ok out → out.2.2 = 480) := by
  constructor
  · have h := PianoSampler.collect_rows_go_no_header rows 0 [] none hnh
    unfold PianoSampler.parse_midicsv_file
    split
    · rfl
    case h_2 collected tpb heq =>
      rw [heq] at h
      exact absurd h (by simp)
  · intro out hout
    exact DrumSampler.parse_midicsv_go_no_header_tpb rows 480 [] [] out hnh hout

/-- Witness for C6 (amended) at a concrete header-less input. -/
theorem missing_header_behaviour_witness :
    PianoSampler.parse_midicsv_file [["1", "0", "Note_on_c", "9", "36", "100"]] =
      .error "Missing Header division" :=
  (missing_header_behaviour [["1", "0", "Note_on_c", "9", "36", "100"]] (by decide)).1

namespace PianoSampler

/-- C7: in both file-based piano parsers, note-ons are appended at the back
of their `(channel, note)` stack, a note-off (or a note-on with velocity ≤ 0
in the MIDI stream, velocity ≤ 0 `Note_on_c` in MIDICSV) consumes the oldest
pending note-on of its key and emits an event with
`duration = max 0 (time_off - time_on)`, and a note-off with no pending
note-on is ignored and produces no event. -/
theorem note_matching_fifo :
    (∀ (ticks_per_beat : Int) (st : MidiState) (m : MidoMessage),
      m.msg_type = "note_on" → m.velocity > 0 →
      parse_midi_step ticks_per_beat st m =
        { st with
          current_time := st.current_time + tick2second m.time ticks_per_beat st.tempo,
          active := Function.update st.active (m.channel, m.note)
            (st.active (m.channel, m.note) ++
              [(st.current_time + tick2second m.time ticks_per_beat st.tempo,
                m.velocity)]) }) ∧
    (∀ (ticks_per_beat : Int) (st : MidiState) (m : MidoMessage),
      (m.msg_type = "note_off" ∨ (m.msg_type = "note_on" ∧ ¬ m.velocity > 0)) →
      st.active (m.channel, m.note) = [] →
      parse_midi_step ticks_per_beat st m =
        { st with
          current_time := st.current_time + tick2second m.time ticks_per_beat st.tempo }) ∧
    (∀ (ticks_per_beat : Int) (st : MidiState) (m : MidoMessage)
      (t0 : ℚ) (v0 : Int) (stack : List (ℚ × Int)),
      (m.msg_type = "note_off" ∨ (m.msg_type = "note_on" ∧ ¬ m.velocity > 0)) →
      st.active (m.channel, m.note) = (t0, v0) :: stack →
      parse_midi_step ticks_per_beat st m =
        { st with
          current_time := st.current_time + tick2second m.time ticks_per_beat st.tempo,
          active := Function.update st.active (m.channel, m.note) stack,
          events := st.events ++
            [{ start := t0,
               duration := max 0
                 (st.current_time + tick2second m.time ticks_per_beat st.tempo - t0),
               note := m.note, velocity := v0 }] }) ∧
    (∀ (ticks_per_beat : Int) (st : CsvState) (item : Int × Nat × List String)
      (note velocity channel : Int),
      (if 2 < item.2.2.length then strip (item.2.2.getD 2 "") else "") = "Note_on_c" →
      py_int (item.2.2.getD 4 "") = some note →
      py_int (item.2.2.getD 5 "") = some velocity →
      py_int (item.2.2.getD 3 "") = some channel →
      velocity > 0 →
      parse_midicsv_file_step ticks_per_beat st item =
        .ok { csv_advance_time ticks_per_beat st item.1 with
          active := Function.update (csv_advance_time ticks_per_beat st item.1).active
            (channel, note)
            ((csv_advance_time ticks_per_beat st item.1).active (channel, note) ++
              [((csv_advance_time ticks_per_beat st item.1).current_time, velocity)]) }) ∧
    (∀ (ticks_per_beat : Int) (st : CsvState) (item : Int × Nat × List String)
      (note velocity channel : Int),
      ((if 2 < item.2.2.length then strip (item.2.2.getD 2 "") else "") = "Note_off_c" ∨
        ((if 2 < item.2.2.length then strip (item.2.2.getD 2 "") else "") = "Note_on_c" ∧
          ¬ velocity > 0)) →
      py_int (item.2.2.getD 4 "") = some note →
      py_int (item.2.2.getD 5 "") = some velocity →
      py_int (item.2.2.getD 3 "") = some channel →
      (csv_advance_time ticks_per_beat st item.1).active (channel, note) = [] →
      parse_midicsv_file_step ticks_per_beat st item =
        .ok (csv_advance_time ticks_per_beat st item.1)) ∧
    (∀ (ticks_per_beat : Int) (st : CsvState) (item : Int × Nat × List String)
      (note velocity channel : Int) (t0 : ℚ) (v0 : Int) (stack : List (ℚ × Int)),
      ((if 2 < item.2.2.length then strip (item.2.2.getD 2 "") else "") = "Note_off_c" ∨
        ((if 2 < item.2.2.length then strip (item.2.2.getD 2 "") else "") = "Note_on_c" ∧
          ¬ velocity > 0)) →
      py_int (item.2.2.getD 4 "") = some note →
      py_int (item.2.2.getD 5 "") = some velocity →
      py_int (item.2.2.getD 3 "") = some channel →
      (csv_advance_time ticks_per_beat st item.1).active (channel, note) =
        (t0, v0) :: stack →
      parse_midicsv_file_step ticks_per_beat st item =
        .ok { csv_advance_time ticks_per_beat st item.1 with
          active := Function.update (csv_advance_time ticks_per_beat st item.1).active
            (channel, note) stack,
          events := (csv_advance_time ticks_per_beat st item.1).events ++
            [{ start := t0,
               duration := max 0
                 ((csv_advance_time ticks_per_beat st item.1).current_time - t0),
               note := note, velocity := v0 }] }) := by
  refine ⟨?_, ?_, ?_, ?_, ?_, ?_⟩
  · intro ticks_per_beat st m hty hv
    unfold parse_midi_step
    rw [hty]
    rw [if_neg (by decide), if_pos ⟨rfl, hv⟩]
  · intro ticks_per_beat st m hty hstack
    unfold parse_midi_step
    rcases hty with hty | ⟨hty, hv⟩
    · rw [hty, if_neg (by decide), if_neg (by simp), if_pos (Or.inl rfl), hstack]
    · rw [hty, if_neg (by decide), if_neg (by simpa using hv), if_pos (Or.inr rfl),
        hstack]
  · intro ticks_per_beat st m t0 v0 stack hty hstack
    unfold parse_midi_step
    rcases hty with hty | ⟨hty, hv⟩
    · rw [hty, if_neg (by decide), if_neg (by simp), if_pos (Or.inl rfl), hstack]
    · rw [hty, if_neg (by decide), if_neg (by simpa using hv), if_pos (Or.inr rfl),
        hstack]
  · intro ticks_per_beat st item note velocity channel hev hnote hvel hch hv
    simp only [parse_midicsv_file_step]
    rw [hev, if_neg (by decide), if_pos (Or.inl rfl), hnote, hvel]
    dsimp only
    rw [if_pos ⟨rfl, hv⟩, hch]
  · intro ticks_per_beat st item note velocity channel hev hnote hvel hch hstack
    simp only [parse_midicsv_file_step]
    rcases hev with hev | ⟨hev, hv⟩
    · rw [hev, if_neg (by decide), if_pos (Or.inr rfl), hnote, hvel]
      dsimp only
      rw [if_neg (by simp), hch]
      dsimp only
      rw [hstack]
    · rw [hev, if_neg (by decide), if_pos (Or.inl rfl), hnote, hvel]
      dsimp only
      rw [if_neg (by simpa using hv), hch]
      dsimp only
      rw [hstack]
  · intro ticks_per_beat st item note velocity channel t0 v0 stack hev hnote hvel hch
      hstack
    simp only [parse_midicsv_file_step]
    rcases hev with hev | ⟨hev, hv⟩
    · rw [hev, if_neg (by decide), if_pos (Or.inr rfl), hnote, hvel]
      dsimp only
      rw [if_neg (by simp), hch]
      dsimp only
      rw [hstack]
    · rw [hev, if_neg (by decide), if_pos (Or.inl rfl), hnote, hvel]
      dsimp only
      rw [if_neg (by simpa using hv), hch]
      dsimp only
      rw [hstack]

end PianoSampler

namespace PianoSampler

/-- Witness for C7: a concrete note-off consumes the oldest pending note-on
of its key and emits an event with duration `max 0 (time_off - time_on)`. -/
theorem note_matching_fifo_witness :
    (parse_midi_step 480
      { tempo := 500000, events := [],
        active := fun k => if k = ((0 : Int), (60 : Int)) then [((0 : ℚ), (100 : Int))]
          else [],
        current_time := 0 }
      { msg_type := "note_off", time := 240, note := 60 }).events =
      [{ start := 0,
         duration := max 0 ((0 : ℚ) + tick2second 240 480 500000 - 0),
         note := 60, velocity := 100 }] := by
  have h := note_matching_fifo.2.2.1 480
    { tempo := 500000, events := [],
      active := fun k => if k = ((0 : Int), (60 : Int)) then [((0 : ℚ), (100 : Int))]
        else [],
      current_time := 0 }
    { msg_type := "note_off", time := 240, note := 60 } 0 100 [] (Or.inl rfl) rfl
  rw [h]
  rfl

end PianoSampler
